import Mathlib

/-!
A shallow embedding of the `yobert/schema` migration engine (Go).

The authoritative implementation is the current library file (package
`schema`: `Search`, `Merge`, `Execute`, `schema_run_sql`, `schema_run_csv`,
`List.Less`, …), which is the version invoked by `cmd/schema/main.go`
through `schema.Options` / `schema.Run`.  The older generation of the same
package (the root `main.go`, with `SearchUnran` and a fingerprint-less
ledger) is embedded separately where a claim cites it.

Modelling conventions:
* the filesystem is a list of `File` values (path plus content digest);
  the fingerprinter (`file_md5`) is abstracted into the digest field;
* `filepath.Glob` is modelled by component-wise pattern matching:
  the pattern and the candidate path are split on `/` and matched
  component by component, `*` and `?` never matching a separator —
  exactly the documented semantics of Go `path/filepath.Match`;
* `encoding/csv` is abstracted to its output: the environment yields the
  parsed records of a CSV file; the reader's uniform-field-count rule
  (`ErrFieldCount`) is enforced on those records;
* database effects are explicit: a transaction is a trace of events
  (`begin`, `exec`, `commit`, `rollback`); the visible database is the
  list of committed statements; statement/begin/commit outcomes are
  supplied by an oracle in the execution environment.
-/

namespace Schema

/-- Structure `File` from the source: one discovered change file, `Path` plus the
`MD5` content digest computed by `file_md5`. -/
structure File where
  Path : String
  MD5 : String
deriving DecidableEq, Repr

/-- Structure `Options` from the source (the database handle and the internal
`would_have_made_files_table` flag are not part of the embedded state). -/
structure Options where
  Dry : Bool
  Verbose : Bool
  SearchPath : String
deriving DecidableEq, Repr

/-- Go bytewise string comparison `s < t` on the underlying characters
(for valid UTF-8, byte order and code-point order coincide). -/
def goStrLtAux : List Char → List Char → Bool
  | [], [] => false
  | [], _ :: _ => true
  | _ :: _, [] => false
  | a :: as, b :: bs =>
    if a.toNat < b.toNat then true
    else if b.toNat < a.toNat then false
    else goStrLtAux as bs

/-- Go string comparison `s < t`. -/
def goStrLt (s t : String) : Bool := goStrLtAux s.data t.data

/-- ASCII decimal digit test (`\d` of the Go regexp). -/
def isDigit (c : Char) : Bool := '0' ≤ c && c ≤ '9'

/-- Go `strconv.Atoi` on a list of decimal digits. -/
def digitsToNat (ds : List Char) : Nat :=
  ds.foldl (fun n c => n * 10 + (c.toNat - '0'.toNat)) 0

/-- One attempt of the regexp `\D(\d{10})\D` anchored at the head of the
character list: a non-digit, exactly ten digits, a non-digit; returns the
numeric value of the captured ten digits. -/
def matchSeqAt : List Char → Option Nat
  | [] => none
  | c :: rest =>
    if isDigit c then none
    else
      let ds := rest.take 10
      if ds.length == 10 && ds.all isDigit then
        match rest.drop 10 with
        | [] => none
        | d :: _ => if isDigit d then none else some (digitsToNat ds)
      else none

/-- Regexp search `FileListMatch.FindStringSubmatch`: the leftmost match of
`\D(\d{10})\D`, as the numeric value of the captured group. -/
def findSeqId : List Char → Option Nat
  | [] => none
  | c :: rest =>
    match matchSeqAt (c :: rest) with
    | some n => some n
    | none => findSeqId rest

/-- Type `List` (the `[]File` slice type) from the source; renamed because
`List` is taken in Lean. -/
abbrev FileList := List File

/-- Comparator `List.Less` from the source: the comparator handed to `sort.Sort`.
Files with no embedded ten-digit sequence id compare by path; a file
without an id sorts before any file with one; two ids compare
numerically. -/
def FileList.Less (f g : File) : Bool :=
  match findSeqId f.Path.data, findSeqId g.Path.data with
  | none, none => goStrLt f.Path g.Path
  | none, some _ => true
  | some _, none => false
  | some i1, some i2 => decide (i1 < i2)

/-- Insert a file into a `List.Less`-sorted list: walk past every entry
strictly less than it (Go `sort.Sort` guarantees only a `Less`-sorted
permutation; insertion keeps the model executable). -/
def insertFile (x : File) : List File → List File
  | [] => [x]
  | g :: rest => if FileList.Less g x then g :: insertFile x rest else x :: g :: rest

/-- Go `sort.Sort(files)` with the `List.Less` comparator, modelled as a
sort producing a `Less`-sorted permutation of its input. -/
def sortFiles (l : List File) : List File :=
  l.foldr insertFile []

/-- The `*` wildcard of Go `path.Match`: succeed when the continuation
accepts some suffix of the component. -/
def starMatch (k : List Char → Bool) : List Char → Bool
  | [] => k []
  | c :: s2 => k (c :: s2) || starMatch k s2

/-- Go `path.Match` on a single path component: `*` matches any possibly
empty run of characters, `?` matches one character, anything else is
literal.  (The patterns this program builds contain no character classes
or escapes.) -/
def compMatch : List Char → List Char → Bool
  | [], s => s.isEmpty
  | c :: ps, s =>
    if c = '*' then starMatch (compMatch ps) s
    else
      match s with
      | [] => false
      | c2 :: s2 => if c = '?' then compMatch ps s2 else c == c2 && compMatch ps s2

/-- Match a list of pattern components against a list of path components,
one to one. -/
def compsMatch : List (List Char) → List (List Char) → Bool
  | [], [] => true
  | p :: ps, c :: cs => compMatch p c && compsMatch ps cs
  | _, _ => false

/-- Prepend a character to the first component of a component list. -/
def consHead (c : Char) : List (List Char) → List (List Char)
  | [] => [[c]]
  | comp :: comps => (c :: comp) :: comps

/-- Split a character list on `/` into path components. -/
def splitComps : List Char → List (List Char)
  | [] => [[]]
  | c :: rest =>
    if c = '/' then [] :: splitComps rest
    else consHead c (splitComps rest)

/-- Go `filepath.Glob` membership: the pattern and the path, split on the
separator, match component by component (wildcards never cross `/`). -/
def pathMatchesPattern (pattern path : String) : Bool :=
  compsMatch (splitComps pattern.data) (splitComps path.data)

/-- Function `Search` from the source: glob `SearchPath + "/**/*.sql"` then
`SearchPath + "/**/*.csv"` over the filesystem, fingerprint each match
(the digest is carried by the `File` entry), and `sort.Sort` the result
with `List.Less`. -/
def Search (options : Options) (fs : List File) : List File :=
  sortFiles
    ((fs.filter fun f => pathMatchesPattern (options.SearchPath ++ "/**/*.sql") f.Path)
      ++ (fs.filter fun f => pathMatchesPattern (options.SearchPath ++ "/**/*.csv") f.Path))

/-- The `paths` map of `Merge`: Go map insertion in list order, so the
last entry with a given path wins. -/
def pathsLookup (old : List File) (p : String) : Option File :=
  (old.filter fun g => g.Path == p).getLast?

/-- The `md5s` map of `Merge`: last entry with a given digest wins. -/
def md5sLookup (old : List File) (m : String) : Option File :=
  (old.filter fun g => g.MD5 == m).getLast?

/-- The two fatal reconciliation errors of `Merge`, carrying exactly the
data interpolated into the Go error strings. -/
inductive MergeError where
  /-- Error "Change file `path` has been modified: md5 `newMD5` expected
  `oldMD5`" -/
  | drift (path newMD5 oldMD5 : String)
  /-- Error "Change file `path` has already been run from path `oldPath`" -/
  | duplicate (path oldPath : String)
deriving DecidableEq, Repr

/-- The per-file loop of `Merge`: skip an unchanged known path, fail on a
changed known path, fail on a known digest under a new path, otherwise
keep the file for the run plan. -/
def mergeLoop (old : List File) : List File → Except MergeError (List File)
  | [] => .ok []
  | f :: rest =>
    match pathsLookup old f.Path with
    | some p =>
      if p.MD5 == f.MD5 then mergeLoop old rest
      else .error (.drift f.Path f.MD5 p.MD5)
    | none =>
      match md5sLookup old f.MD5 with
      | some p => .error (.duplicate f.Path p.Path)
      | none => (mergeLoop old rest).map (f :: ·)

/-- Function `Merge` from the source.  It receives the options value but never
reads it — reconciliation is identical in dry and real mode. -/
def Merge (_options : Options) (old_list new_list : List File) :
    Except MergeError (List File) :=
  mergeLoop old_list new_list

/-- A discovered file that `Merge` passes without error: either its path
is in the ledger with a matching digest (skip), or neither its path nor
its digest is known (new). -/
def mergeOk (old : List File) (f : File) : Bool :=
  match pathsLookup old f.Path with
  | some p => p.MD5 == f.MD5
  | none => (md5sLookup old f.MD5).isNone

/-- A statement sent to the transaction: the trimmed text of a `.sql`
file, one parameter-bound insert per CSV data row (a bound value of
`none` is SQL NULL, `some s` is the string `s`), or the provenance
insert into `schemasupport.files`. -/
inductive Stmt where
  | raw (text : String)
  | insertCSV (table : String) (cols : List String) (vals : List (Option String))
  | ledgerInsert (path md5 : String)
deriving DecidableEq, Repr

/-- One event of the transaction held by `Execute`. -/
inductive TxEvent where
  | begin
  | exec (s : Stmt)
  | commit
  | rollback
deriving DecidableEq, Repr

/-- The visible database: the committed statements, in order.  Persisted
`AppliedRecord`s are the committed `Stmt.ledgerInsert` entries. -/
abbrev DB := List Stmt

/-- The execution environment: file contents (`ioutil.ReadFile`), parsed
CSV records (`encoding/csv`, abstracted to its output), and the database
oracle deciding whether `Begin`, each `tx.Exec`, and `Commit` succeed. -/
structure ExecEnv where
  readFile : String → Except String String
  readCSV : String → Except String (List (List String))
  stmtOk : Stmt → Bool
  beginOk : Bool
  commitOk : Bool

/-- Go `strings.Trim(s, "\t\v\r\n ")`: strip those characters from both
ends. -/
def goTrim (s : String) : String :=
  let cut := fun c : Char => c = '\t' || c = Char.ofNat 11 || c = '\r' || c = '\n' || c = ' '
  String.mk (((s.data.dropWhile cut).reverse.dropWhile cut).reverse)

/-- Regexp `TableFromPathMatch` (`/([^/]+)/[^/]+$`) applied to a change-file
path: the name of the immediate parent directory, provided the path has
a separator before it and both final components are non-empty. -/
def tableFromPath (file : String) : Option String :=
  match (splitComps file.data).reverse with
  | base :: parent :: rest =>
    if base ≠ [] && parent ≠ [] && rest ≠ ([] : List (List Char)) then
      some (String.mk parent)
    else none
  | _ => none

/-- Function `schema_run_sql` from the source: read the file, trim it, and (unless
running dry) execute the text as one statement.  Returns the statements
attempted inside the transaction, and the error if one occurred. -/
def schema_run_sql (options : Options) (env : ExecEnv) (file : String) :
    List Stmt × Option String :=
  match env.readFile file with
  | .error e => ([], some e)
  | .ok raw =>
    let st := Stmt.raw (goTrim raw)
    if options.Dry then ([], none)
    else if env.stmtOk st then ([st], none)
    else ([st], some "sql statement failed")

/-- The data-row loop of `schema_run_csv`: each record after the header
binds one set of values positionally (`vals[i] = v`, so every field is
bound as a string, the empty string included); the record is rejected if
its field count differs from the header (the csv reader's
`ErrFieldCount`); unless running dry, each insert is executed. -/
def csvLoop (options : Options) (env : ExecEnv) (table : String)
    (cols : List String) : List (List String) → List Stmt × Option String
  | [] => ([], none)
  | row :: rest =>
    if row.length ≠ cols.length then ([], some "wrong number of fields")
    else
      let st := Stmt.insertCSV table cols (row.map some)
      if options.Dry then csvLoop options env table cols rest
      else if env.stmtOk st then
        let r := csvLoop options env table cols rest
        (st :: r.1, r.2)
      else ([st], some "csv insert failed")

/-- Function `schema_run_csv` from the source: infer the table from the parent
directory, read the records, treat the first as the column header
(failing when it is empty), and run one insert per data row. -/
def schema_run_csv (options : Options) (env : ExecEnv) (file : String) :
    List Stmt × Option String :=
  match tableFromPath file with
  | none => ([], some ("Unable to figure out table name from changefile " ++ file))
  | some table =>
    match env.readCSV file with
    | .error e => ([], some e)
    | .ok [] => ([], none)
    | .ok (header :: rows) =>
      if header.length == 0 then
        ([], some ("No columns found in first line of file " ++ file))
      else csvLoop options env table header rows

/-- The per-file dispatch of `Execute`: `.csv` suffix selects the CSV
translator, everything else the SQL runner. -/
def runFile (options : Options) (env : ExecEnv) (f : File) :
    List Stmt × Option String :=
  if List.isSuffixOf ".csv".data f.Path.data then
    schema_run_csv options env f.Path
  else schema_run_sql options env f.Path

/-- The file loop of `Execute`: run each file, then (unless dry) append
its provenance row to the ledger inside the same transaction; count each
fully processed file.  Returns the statements staged in the transaction,
the first error, and the `stats.New` increment. -/
def execLoop (options : Options) (env : ExecEnv) :
    List File → List Stmt × Option String × Nat
  | [] => ([], none, 0)
  | f :: rest =>
    let r := runFile options env f
    match r.2 with
    | some e => (r.1, some e, 0)
    | none =>
      if options.Dry then
        let r2 := execLoop options env rest
        (r.1 ++ r2.1, r2.2.1, r2.2.2 + 1)
      else
        let ledg := Stmt.ledgerInsert f.Path f.MD5
        if env.stmtOk ledg then
          let r2 := execLoop options env rest
          (r.1 ++ ledg :: r2.1, r2.2.1, r2.2.2 + 1)
        else (r.1 ++ [ledg], some "ledger insert failed", 0)

/-- The outcome of `Execute`: its return value, the visible database
afterwards, the transaction event trace, and the `stats.New` total. -/
structure ExecResult where
  result : Except String Unit
  db : DB
  trace : List TxEvent
  newCount : Nat
deriving Repr

/-- Function `Execute` from the source.  An empty plan is a no-op.  Otherwise one
transaction is opened for the whole plan; on any error the deferred
rollback fires and nothing becomes visible; on success a real run
commits the staged statements while a dry run leaves the transaction
open (neither commit nor rollback is ever invoked). -/
def Execute (options : Options) (env : ExecEnv) (run : List File) (db : DB) :
    ExecResult :=
  if run.isEmpty then ⟨.ok (), db, [], 0⟩
  else if !env.beginOk then ⟨.error "begin failed", db, [], 0⟩
  else
    let r := execLoop options env run
    let evs := TxEvent.begin :: r.1.map TxEvent.exec
    match r.2.1 with
    | some e => ⟨.error e, db, evs ++ [TxEvent.rollback], r.2.2⟩
    | none =>
      if options.Dry then ⟨.ok (), db, evs, r.2.2⟩
      else if env.commitOk then
        ⟨.ok (), db ++ r.1, evs ++ [TxEvent.commit], r.2.2⟩
      else ⟨.error "commit failed", db, evs ++ [TxEvent.commit], r.2.2⟩

/-- The errors `Run` can propagate after discovery has produced its
file list. -/
inductive RunError where
  | noFiles (root : String)
  | merge (e : MergeError)
  | exec (msg : String)
deriving DecidableEq, Repr

/-- The outcome of a whole run. -/
structure RunResult where
  result : Except RunError Unit
  db : DB
  trace : List TxEvent
  newCount : Nat
deriving Repr

/-- The tail of `Run` after the ledger has been loaded and discovery has
returned `new_list`: fail when nothing was found, reconcile, and execute
the plan.  When `Merge` fails, `Execute` is never reached: the event
trace stays empty and the database untouched. -/
def RunFromLists (options : Options) (env : ExecEnv)
    (old_list new_list : List File) (db : DB) : RunResult :=
  if new_list.isEmpty then ⟨.error (.noFiles options.SearchPath), db, [], 0⟩
  else
    match Merge options old_list new_list with
    | .error e => ⟨.error (.merge e), db, [], 0⟩
    | .ok run =>
      let r := Execute options env run db
      ⟨r.result.mapError .exec, r.db, r.trace, r.newCount⟩

/-- Function `Run` from the source, with the support-table bootstrap abstracted:
the loaded ledger is `old_list`, discovery runs over the filesystem
`fs`. -/
def Run (options : Options) (env : ExecEnv) (old_list : List File)
    (fs : List File) (db : DB) : RunResult :=
  RunFromLists options env old_list (Search options fs) db

/-- The statements actually sent to the database inside the transaction:
the `exec` events of a trace. -/
def txWrites (t : List TxEvent) : List Stmt :=
  t.filterMap fun ev =>
    match ev with
    | .exec s => some s
    | _ => none

/-- The value loop of the OLD generation of the CSV translator (the root
`main.go`, superseded by the current library file): it binds the empty
string as NULL — `if v == "" { vals[i] = nil } else { vals[i] = v }`. -/
def oldCSVBindRow (row : List String) : List (Option String) :=
  row.map fun v => if v = "" then none else some v

/-! ### Reconciliation lemmas -/

/-- A file whose `mergeOk` check passes never changes the error behaviour
of the merge loop: it is either skipped or appended. -/
theorem mergeLoop_cons_ok (old : List File) (g : File) (rest : List File)
    (h : mergeOk old g = true) :
    mergeLoop old (g :: rest) = mergeLoop old rest ∨
      mergeLoop old (g :: rest) = (mergeLoop old rest).map (g :: ·) := by
  unfold mergeOk at h
  cases hp : pathsLookup old g.Path with
  | some p =>
    rw [hp] at h
    have h2 : (p.MD5 == g.MD5) = true := h
    left
    simp only [mergeLoop, hp, h2, if_true]
  | none =>
    rw [hp] at h
    cases hm : md5sLookup old g.MD5 with
    | some q => rw [hm] at h; simp at h
    | none =>
      right
      simp only [mergeLoop, hp, hm]

/-- If the ledger maps path `P` to fingerprint `F1` and the discovered
list contains `P` only with fingerprint `F2 ≠ F1`, while every other
discovered file passes its checks, the merge loop fails with exactly the
drift error for `P`. -/
theorem mergeLoop_drift (old : List File) (P F1 F2 : String) (pf : File)
    (hpf : pathsLookup old P = some pf) (hF1 : pf.MD5 = F1)
    (hne : F1 ≠ F2) :
    ∀ nw : List File, File.mk P F2 ∈ nw →
      (∀ g ∈ nw, g.Path ≠ P → mergeOk old g = true) →
      (∀ g ∈ nw, g.Path = P → g.MD5 = F2) →
      mergeLoop old nw = .error (.drift P F2 F1) := by
  intro nw
  induction nw with
  | nil => intro h; exact absurd h (List.not_mem_nil _)
  | cons g rest ih =>
    intro hmem hothers hsame
    by_cases hgP : g.Path = P
    · have hmd5 : g.MD5 = F2 := hsame g (List.mem_cons_self g rest) hgP
      have hbeq : (F1 == F2) = false := beq_eq_false_iff_ne.mpr hne
      simp only [mergeLoop, hgP, hpf, hmd5, hF1]
      simp [hbeq]
    · have hok : mergeOk old g = true :=
        hothers g (List.mem_cons_self g rest) hgP
      have hmem2 : File.mk P F2 ∈ rest := by
        rcases List.mem_cons.mp hmem with h | h
        · exact absurd (congrArg File.Path h.symm) hgP
        · exact h
      have hrec := ih hmem2
        (fun a ha hne2 => hothers a (List.mem_cons_of_mem g ha) hne2)
        (fun a ha he => hsame a (List.mem_cons_of_mem g ha) he)
      rcases mergeLoop_cons_ok old g rest hok with h | h
      · rw [h, hrec]
      · rw [h, hrec]; rfl

/-- If path `Q` is unknown to the ledger but its fingerprint `F` is
recorded there for `pf`, and every other discovered file passes its
checks, the merge loop fails with exactly the duplicate-content error
naming `Q` and `pf`'s path. -/
theorem mergeLoop_duplicate (old : List File) (Q F : String) (pf : File)
    (hq : pathsLookup old Q = none) (hm : md5sLookup old F = some pf) :
    ∀ nw : List File, File.mk Q F ∈ nw →
      (∀ g ∈ nw, g.Path ≠ Q → mergeOk old g = true) →
      (∀ g ∈ nw, g.Path = Q → g.MD5 = F) →
      mergeLoop old nw = .error (.duplicate Q pf.Path) := by
  intro nw
  induction nw with
  | nil => intro h; exact absurd h (List.not_mem_nil _)
  | cons g rest ih =>
    intro hmem hothers hsame
    by_cases hgQ : g.Path = Q
    · have hmd5 : g.MD5 = F := hsame g (List.mem_cons_self g rest) hgQ
      simp only [mergeLoop, hgQ, hq, hmd5, hm]
    · have hok : mergeOk old g = true :=
        hothers g (List.mem_cons_self g rest) hgQ
      have hmem2 : File.mk Q F ∈ rest := by
        rcases List.mem_cons.mp hmem with h | h
        · exact absurd (congrArg File.Path h.symm) hgQ
        · exact h
      have hrec := ih hmem2
        (fun a ha hne2 => hothers a (List.mem_cons_of_mem g ha) hne2)
        (fun a ha he => hsame a (List.mem_cons_of_mem g ha) he)
      rcases mergeLoop_cons_ok old g rest hok with h | h
      · rw [h, hrec]
      · rw [h, hrec]; rfl

/-- When every discovered file is already in the ledger under its own
path with a matching fingerprint, the merge loop skips all of them. -/
theorem mergeLoop_all_known (old : List File) :
    ∀ nw : List File,
      (∀ f ∈ nw, ∃ p, pathsLookup old f.Path = some p ∧ p.MD5 = f.MD5) →
      mergeLoop old nw = .ok [] := by
  intro nw
  induction nw with
  | nil => intro _; rfl
  | cons g rest ih =>
    intro h
    obtain ⟨p, hp, hmd5⟩ := h g (List.mem_cons_self g rest)
    have hb : (p.MD5 == g.MD5) = true := beq_iff_eq.mpr hmd5
    simp only [mergeLoop, hp, hb, if_true]
    exact ih fun a ha => h a (List.mem_cons_of_mem g ha)

/-- When neither the path nor the fingerprint of any discovered file is
in the ledger, the merge loop keeps every file, in order. -/
theorem mergeLoop_all_new (old : List File) :
    ∀ nw : List File,
      (∀ g ∈ nw, pathsLookup old g.Path = none ∧ md5sLookup old g.MD5 = none) →
      mergeLoop old nw = .ok nw := by
  intro nw
  induction nw with
  | nil => intro _; rfl
  | cons g rest ih =>
    intro h
    obtain ⟨hp, hm⟩ := h g (List.mem_cons_self g rest)
    simp only [mergeLoop, hp, hm, ih fun a ha => h a (List.mem_cons_of_mem g ha)]
    rfl

/-- A concrete execution environment for witnesses: every read fails,
every statement succeeds. -/
def env0 : ExecEnv where
  readFile := fun _ => .error "unreadable"
  readCSV := fun _ => .error "unreadable"
  stmtOk := fun _ => true
  beginOk := true
  commitOk := true

/-- C5: a ledger entry for path `P` with fingerprint `F1` together with a
discovered file at `P` carrying a different fingerprint `F2` makes
reconciliation fail with the drift error naming `P` and both
fingerprints; no run plan is produced and the run aborts before any
execution (empty transaction trace, database untouched). -/
theorem C5_drift_error (options : Options) (env : ExecEnv)
    (old_list new_list : List File) (db : DB) (P F1 F2 : String) (pf : File)
    (hledger : pathsLookup old_list P = some pf) (hF1 : pf.MD5 = F1)
    (hdisc : File.mk P F2 ∈ new_list) (hne : F1 ≠ F2)
    (hothers : ∀ g ∈ new_list, g.Path ≠ P → mergeOk old_list g = true)
    (honly : ∀ g ∈ new_list, g.Path = P → g.MD5 = F2) :
    Merge options old_list new_list = .error (.drift P F2 F1) ∧
      RunFromLists options env old_list new_list db =
        ⟨.error (.merge (.drift P F2 F1)), db, [], 0⟩ := by
  have hm := mergeLoop_drift old_list P F1 F2 pf hledger hF1 hne
    new_list hdisc hothers honly
  refine ⟨hm, ?_⟩
  have hne2 : new_list.isEmpty = false := by
    cases new_list with
    | nil => exact absurd hdisc (List.not_mem_nil _)
    | cons a l => rfl
  simp [RunFromLists, Merge, hne2, hm]

/-- Witness for C5 at a concrete ledger and discovery set. -/
theorem C5_witness :
    Merge ⟨false, false, "sql"⟩ [⟨"sql/t/a.sql", "F1"⟩] [⟨"sql/t/a.sql", "F2"⟩] =
        .error (.drift "sql/t/a.sql" "F2" "F1") ∧
      RunFromLists ⟨false, false, "sql"⟩ env0 [⟨"sql/t/a.sql", "F1"⟩]
          [⟨"sql/t/a.sql", "F2"⟩] [] =
        ⟨.error (.merge (.drift "sql/t/a.sql" "F2" "F1")), [], [], 0⟩ :=
  C5_drift_error ⟨false, false, "sql"⟩ env0 [⟨"sql/t/a.sql", "F1"⟩]
    [⟨"sql/t/a.sql", "F2"⟩] [] "sql/t/a.sql" "F1" "F2" ⟨"sql/t/a.sql", "F1"⟩
    (by decide) rfl (by decide) (by decide) (by decide) (by decide)

/-- C6: a ledger entry with fingerprint `F` under path `pf.Path` together
with a discovered file at a different, unknown path `Q` carrying the same
`F` makes reconciliation fail with the duplicate-content error naming
both paths; no run plan is produced. -/
theorem C6_duplicate_error (options : Options) (env : ExecEnv)
    (old_list new_list : List File) (db : DB) (Q F : String) (pf : File)
    (hq : pathsLookup old_list Q = none) (hmd : md5sLookup old_list F = some pf)
    (hQP : Q ≠ pf.Path)
    (hdisc : File.mk Q F ∈ new_list)
    (hothers : ∀ g ∈ new_list, g.Path ≠ Q → mergeOk old_list g = true)
    (honly : ∀ g ∈ new_list, g.Path = Q → g.MD5 = F) :
    Merge options old_list new_list = .error (.duplicate Q pf.Path) ∧
      RunFromLists options env old_list new_list db =
        ⟨.error (.merge (.duplicate Q pf.Path)), db, [], 0⟩ := by
  have hm := mergeLoop_duplicate old_list Q F pf hq hmd
    new_list hdisc hothers honly
  refine ⟨hm, ?_⟩
  have hne2 : new_list.isEmpty = false := by
    cases new_list with
    | nil => exact absurd hdisc (List.not_mem_nil _)
    | cons a l => rfl
  simp [RunFromLists, Merge, hne2, hm]

/-- Witness for C6 at a concrete ledger and discovery set. -/
theorem C6_witness :
    Merge ⟨false, false, "sql"⟩ [⟨"sql/t/a.sql", "F"⟩] [⟨"sql/t/b.sql", "F"⟩] =
        .error (.duplicate "sql/t/b.sql" "sql/t/a.sql") ∧
      RunFromLists ⟨false, false, "sql"⟩ env0 [⟨"sql/t/a.sql", "F"⟩]
          [⟨"sql/t/b.sql", "F"⟩] [] =
        ⟨.error (.merge (.duplicate "sql/t/b.sql" "sql/t/a.sql")), [], [], 0⟩ :=
  C6_duplicate_error ⟨false, false, "sql"⟩ env0 [⟨"sql/t/a.sql", "F"⟩]
    [⟨"sql/t/b.sql", "F"⟩] [] "sql/t/b.sql" "F" ⟨"sql/t/a.sql", "F"⟩
    (by decide) (by decide) (by decide) (by decide) (by decide) (by decide)

/-- C8: when the ledger already records every discovered file under its
own path with a matching fingerprint, reconciliation yields the empty
plan, and the Executor on the empty plan succeeds without opening a
transaction, leaves the database unchanged, and counts zero new files —
as does the whole run. -/
theorem C8_idempotence (options : Options) (env : ExecEnv)
    (old_list new_list : List File) (db : DB)
    (hne : new_list ≠ [])
    (hknown : ∀ f ∈ new_list,
      ∃ p, pathsLookup old_list f.Path = some p ∧ p.MD5 = f.MD5) :
    Merge options old_list new_list = .ok [] ∧
      Execute options env [] db = ⟨.ok (), db, [], 0⟩ ∧
      RunFromLists options env old_list new_list db = ⟨.ok (), db, [], 0⟩ := by
  have hm : Merge options old_list new_list = .ok [] :=
    mergeLoop_all_known old_list new_list hknown
  have hne2 : new_list.isEmpty = false := by
    cases new_list with
    | nil => exact absurd rfl hne
    | cons a l => rfl
  refine ⟨hm, rfl, ?_⟩
  simp [RunFromLists, hne2, hm, Execute, Except.mapError]

/-- Witness for C8 at a concrete ledger and discovery set. -/
theorem C8_witness :
    Merge ⟨false, false, "sql"⟩ [⟨"sql/t/a.sql", "F"⟩] [⟨"sql/t/a.sql", "F"⟩] =
        .ok [] ∧
      Execute ⟨false, false, "sql"⟩ env0 [] [] = ⟨.ok (), [], [], 0⟩ ∧
      RunFromLists ⟨false, false, "sql"⟩ env0 [⟨"sql/t/a.sql", "F"⟩]
          [⟨"sql/t/a.sql", "F"⟩] [] = ⟨.ok (), [], [], 0⟩ :=
  C8_idempotence ⟨false, false, "sql"⟩ env0 [⟨"sql/t/a.sql", "F"⟩]
    [⟨"sql/t/a.sql", "F"⟩] [] (by decide)
    (by
      intro f hf
      rw [List.mem_singleton] at hf
      exact ⟨⟨"sql/t/a.sql", "F"⟩, by rw [hf]; exact ⟨by decide, rfl⟩⟩)

/-- C9: duplicate content among files discovered in the same run is not
checked — when no discovered file's path or fingerprint is in the
ledger, reconciliation succeeds and plans all of them, even if two of
them share a fingerprint under distinct paths. -/
theorem C9_no_intra_run_duplicate_check (options : Options)
    (old_list new_list : List File) (f1 f2 : File)
    (h1 : f1 ∈ new_list) (h2 : f2 ∈ new_list)
    (hp : f1.Path ≠ f2.Path) (hmd : f1.MD5 = f2.MD5)
    (hfresh : ∀ g ∈ new_list,
      pathsLookup old_list g.Path = none ∧ md5sLookup old_list g.MD5 = none) :
    Merge options old_list new_list = .ok new_list :=
  mergeLoop_all_new old_list new_list hfresh

/-- Witness for C9: two fresh files with distinct paths and the same
fingerprint are both planned. -/
theorem C9_witness :
    Merge ⟨false, false, "sql"⟩ [] [⟨"sql/t/a.sql", "F"⟩, ⟨"sql/t/b.sql", "F"⟩] =
      .ok [⟨"sql/t/a.sql", "F"⟩, ⟨"sql/t/b.sql", "F"⟩] :=
  C9_no_intra_run_duplicate_check ⟨false, false, "sql"⟩ []
    [⟨"sql/t/a.sql", "F"⟩, ⟨"sql/t/b.sql", "F"⟩]
    ⟨"sql/t/a.sql", "F"⟩ ⟨"sql/t/b.sql", "F"⟩
    (by decide) (by decide) (by decide) rfl (by decide)

/-! ### Executor lemmas -/

/-- A concrete execution environment where reads succeed and every
statement succeeds. -/
def env1 : ExecEnv where
  readFile := fun _ => .ok "create table t (x int);"
  readCSV := fun _ => .ok [["id", "name"], ["1", "Alice"], ["2", ""]]
  stmtOk := fun _ => true
  beginOk := true
  commitOk := true

/-- Under dry-run the CSV loop sends nothing to the transaction. -/
theorem csvLoop_dry_staged (options : Options) (env : ExecEnv)
    (table : String) (cols : List String) (hdry : options.Dry = true) :
    ∀ rows, (csvLoop options env table cols rows).1 = [] := by
  intro rows
  induction rows with
  | nil => rfl
  | cons row rest ih =>
    simp only [csvLoop, hdry, if_true]
    by_cases hlen : row.length ≠ cols.length
    · rw [if_pos hlen]
    · rw [if_neg hlen]
      exact ih

/-- Under dry-run no file runner sends anything to the transaction. -/
theorem runFile_dry_staged (options : Options) (env : ExecEnv) (f : File)
    (hdry : options.Dry = true) : (runFile options env f).1 = [] := by
  unfold runFile
  by_cases hcsv : List.isSuffixOf ".csv".data f.Path.data
  · rw [if_pos hcsv]
    unfold schema_run_csv
    cases tableFromPath f.Path with
    | none => rfl
    | some table =>
      cases env.readCSV f.Path with
      | error e => rfl
      | ok rows =>
        cases rows with
        | nil => rfl
        | cons header rest =>
          by_cases hh : (header.length == 0) = true
          · simp only [hh, if_true]
          · simp only [hh, if_false]
            exact csvLoop_dry_staged options env table header hdry rest
  · rw [if_neg hcsv]
    unfold schema_run_sql
    cases env.readFile f.Path with
    | error e => rfl
    | ok raw => simp only [hdry, if_true]

/-- Under dry-run the whole execution loop stages no statement. -/
theorem execLoop_dry_staged (options : Options) (env : ExecEnv)
    (hdry : options.Dry = true) :
    ∀ run, (execLoop options env run).1 = [] := by
  intro run
  induction run with
  | nil => rfl
  | cons f rest ih =>
    simp only [execLoop]
    cases herr : (runFile options env f).2 with
    | some e => simpa using runFile_dry_staged options env f hdry
    | none =>
      simp only [hdry, if_true]
      rw [runFile_dry_staged options env f hdry, ih]
      rfl

/-- Under dry-run, when every file runner succeeds, the execution loop
succeeds with nothing staged and counts every file. -/
theorem execLoop_dry_ok (options : Options) (env : ExecEnv)
    (hdry : options.Dry = true) :
    ∀ run, (∀ f ∈ run, (runFile options env f).2 = none) →
      execLoop options env run = ([], none, run.length) := by
  intro run
  induction run with
  | nil => intro _; rfl
  | cons f rest ih =>
    intro hok
    have hf : (runFile options env f).2 = none :=
      hok f (List.mem_cons_self f rest)
    simp only [execLoop, hf, hdry, if_true,
      runFile_dry_staged options env f hdry,
      ih fun a ha => hok a (List.mem_cons_of_mem f ha)]
    rfl

/-- C3: any failure inside a non-empty plan (translation, statement, or
ledger append, on any file) makes `Execute` return that error, roll the
transaction back, and leave the visible database exactly as it was —
zero applied records persist and no statement of any file of the
invocation remains visible. -/
theorem C3_atomic_rollback (options : Options) (env : ExecEnv)
    (run : List File) (db : DB) (e : String)
    (hne : run ≠ []) (hbegin : env.beginOk = true)
    (herr : (execLoop options env run).2.1 = some e) :
    Execute options env run db =
      ⟨.error e, db,
        TxEvent.begin :: (execLoop options env run).1.map TxEvent.exec
          ++ [TxEvent.rollback],
        (execLoop options env run).2.2⟩ := by
  have hne2 : run.isEmpty = false := by
    cases run with
    | nil => exact absurd rfl hne
    | cons a l => rfl
  simp only [Execute, hne2, Bool.false_eq_true, if_false, hbegin,
    Bool.not_true]
  rw [herr]

/-- Witness for C3: a one-file plan whose translation fails (unreadable
file) rolls back and leaves the database untouched. -/
theorem C3_witness :
    Execute ⟨false, false, "sql"⟩ env0 [⟨"sql/t/a.sql", "h"⟩] [Stmt.raw "old"] =
      ⟨.error "unreadable", [Stmt.raw "old"],
        [TxEvent.begin, TxEvent.rollback], 0⟩ :=
  (C3_atomic_rollback ⟨false, false, "sql"⟩ env0 [⟨"sql/t/a.sql", "h"⟩]
    [Stmt.raw "old"] "unreadable" (by decide) rfl (by decide)).trans rfl

/-- C4: reconciliation is oblivious to the options (in particular to
dry-run): `Merge` returns the identical plan or identical error for any
two option values; and under dry-run the Executor writes nothing — no
statement is ever sent to the transaction and the database is unchanged,
whatever the plan. -/
theorem C4_dry_run_equivalence (o1 o2 : Options) (old_list new_list : List File)
    (options : Options) (env : ExecEnv) (run : List File) (db : DB)
    (hdry : options.Dry = true) :
    Merge o1 old_list new_list = Merge o2 old_list new_list ∧
      (Execute options env run db).db = db ∧
      txWrites (Execute options env run db).trace = [] := by
  refine ⟨rfl, ?_⟩
  have hstaged := execLoop_dry_staged options env hdry run
  by_cases hempty : run.isEmpty
  · simp [Execute, hempty, txWrites]
  · simp only [Bool.not_eq_true] at hempty
    by_cases hb : env.beginOk
    · simp only [Execute, hempty, Bool.false_eq_true, if_false, hb,
        Bool.not_true]
      cases herr : (execLoop options env run).2.1 with
      | some e => simp [hstaged, txWrites]
      | none => simp [hdry, hstaged, txWrites]
    · simp only [Bool.not_eq_true] at hb
      simp [Execute, hempty, hb, txWrites]

/-- Witness for C4 at concrete options, plan and database. -/
theorem C4_witness :
    Merge ⟨false, false, "sql"⟩ [⟨"sql/t/a.sql", "F"⟩] [⟨"sql/t/a.sql", "F2"⟩] =
        Merge ⟨true, true, "x"⟩ [⟨"sql/t/a.sql", "F"⟩] [⟨"sql/t/a.sql", "F2"⟩] ∧
      (Execute ⟨true, false, "sql"⟩ env1 [⟨"sql/t/a.sql", "h"⟩]
          [Stmt.raw "old"]).db = [Stmt.raw "old"] ∧
      txWrites (Execute ⟨true, false, "sql"⟩ env1 [⟨"sql/t/a.sql", "h"⟩]
          [Stmt.raw "old"]).trace = [] :=
  C4_dry_run_equivalence ⟨false, false, "sql"⟩ ⟨true, true, "x"⟩
    [⟨"sql/t/a.sql", "F"⟩] [⟨"sql/t/a.sql", "F2"⟩]
    ⟨true, false, "sql"⟩ env1 [⟨"sql/t/a.sql", "h"⟩] [Stmt.raw "old"] rfl

/-- C10: a non-empty plan under dry-run in which every file translates
cleanly makes `Execute` open the transaction and return success with the
trace containing only the `begin` event — the transaction is never
committed and never rolled back. -/
theorem C10_dry_tx_left_open (options : Options) (env : ExecEnv)
    (run : List File) (db : DB)
    (hdry : options.Dry = true) (hne : run ≠ []) (hbegin : env.beginOk = true)
    (hok : ∀ f ∈ run, (runFile options env f).2 = none) :
    Execute options env run db = ⟨.ok (), db, [TxEvent.begin], run.length⟩ := by
  have hne2 : run.isEmpty = false := by
    cases run with
    | nil => exact absurd rfl hne
    | cons a l => rfl
  simp only [Execute, hne2, Bool.false_eq_true, if_false, hbegin,
    Bool.not_true, execLoop_dry_ok options env hdry run hok, hdry, if_true]
  rfl

/-- Witness for C10: a one-file dry run leaves exactly an open
transaction behind. -/
theorem C10_witness :
    Execute ⟨true, false, "sql"⟩ env1 [⟨"sql/t/a.sql", "h"⟩] [] =
      ⟨.ok (), [], [TxEvent.begin], 1⟩ :=
  C10_dry_tx_left_open ⟨true, false, "sql"⟩ env1 [⟨"sql/t/a.sql", "h"⟩] []
    rfl (by decide) rfl (by decide)

/-! ### CSV translation -/

/-- When every data row has the header's width and its insert succeeds,
the CSV loop runs exactly one insert per data row, binding every field
verbatim as a string value (`vals[i] = v` — the empty string included,
never NULL). -/
theorem csvLoop_run (options : Options) (env : ExecEnv)
    (table : String) (cols : List String) (hdry : options.Dry = false) :
    ∀ rows : List (List String),
      (∀ r ∈ rows, r.length = cols.length) →
      (∀ r ∈ rows, env.stmtOk (Stmt.insertCSV table cols (r.map some)) = true) →
      csvLoop options env table cols rows =
        (rows.map fun r => Stmt.insertCSV table cols (r.map some), none) := by
  intro rows
  induction rows with
  | nil => intro _ _; rfl
  | cons row rest ih =>
    intro hlen hok
    have h1 : ¬ row.length ≠ cols.length :=
      not_not_intro (hlen row (List.mem_cons_self row rest))
    have h2 : env.stmtOk (Stmt.insertCSV table cols (row.map some)) = true :=
      hok row (List.mem_cons_self row rest)
    simp only [csvLoop, if_neg h1, hdry, Bool.false_eq_true, if_false, h2,
      if_true, ih (fun r hr => hlen r (List.mem_cons_of_mem row hr))
        (fun r hr => hok r (List.mem_cons_of_mem row hr))]
    rfl

/-- C1 (amended): for a CSV change file whose table can be inferred and
whose reads succeed, each data row after the header supplies one set of
bound values for the generated insert, every value being bound verbatim
as a string — the empty string is bound as the empty string, not as
NULL. -/
theorem C1_csv_binds_empty_string (options : Options) (env : ExecEnv)
    (file table : String) (header : List String) (rows : List (List String))
    (htable : tableFromPath file = some table)
    (hcsv : env.readCSV file = .ok (header :: rows))
    (hheader : header ≠ [])
    (hlen : ∀ r ∈ rows, r.length = header.length)
    (hdry : options.Dry = false)
    (hok : ∀ r ∈ rows, env.stmtOk (Stmt.insertCSV table header (r.map some)) = true) :
    schema_run_csv options env file =
      (rows.map fun r => Stmt.insertCSV table header (r.map some), none) := by
  have hh : (header.length == 0) = false := by
    cases header with
    | nil => exact absurd rfl hheader
    | cons a l => rfl
  simp only [schema_run_csv, htable, hcsv, hh, Bool.false_eq_true, if_false]
  exact csvLoop_run options env table header hdry rows hlen hok

/-- Witness for the amended C1: header `id,name`, rows `1,Alice` and
`2,` produce two inserts into table `users`, the second binding
`some ""` for `name`. -/
theorem C1_witness :
    schema_run_csv ⟨false, false, "sql"⟩ env1 "sql/users/data.csv" =
      ([Stmt.insertCSV "users" ["id", "name"] [some "1", some "Alice"],
        Stmt.insertCSV "users" ["id", "name"] [some "2", some ""]], none) :=
  C1_csv_binds_empty_string ⟨false, false, "sql"⟩ env1 "sql/users/data.csv"
    "users" ["id", "name"] [["1", "Alice"], ["2", ""]]
    (by decide) rfl (by decide) (by decide) rfl (by decide)

/-- C1 counterexample: on the current translator the row `2,` binds the
empty string, not NULL — the produced insert differs from the
NULL-binding one the claim describes (which is what the superseded
`main.go` loop, `oldCSVBindRow`, produced). -/
theorem C1_counterexample :
    (schema_run_csv ⟨false, false, "sql"⟩ env1 "sql/users/data.csv").1.getLast? =
        some (Stmt.insertCSV "users" ["id", "name"] [some "2", some ""]) ∧
      Stmt.insertCSV "users" ["id", "name"] [some "2", some ""] ≠
        Stmt.insertCSV "users" ["id", "name"] [some "2", none] ∧
      oldCSVBindRow ["2", ""] = [some "2", none] := by
  exact ⟨by decide, by decide, by decide⟩

/-! ### Ordering -/

/-- Go string comparison is transitive. -/
theorem goStrLtAux_trans : ∀ a b c : List Char,
    goStrLtAux a b = true → goStrLtAux b c = true → goStrLtAux a c = true := by
  intro a
  induction a with
  | nil =>
    intro b c hab hbc
    cases b with
    | nil => exact absurd hab (by simp [goStrLtAux])
    | cons y bs =>
      cases c with
      | nil => exact absurd hbc (by simp [goStrLtAux])
      | cons z cs => rfl
  | cons x as ih =>
    intro b c hab hbc
    cases b with
    | nil => exact absurd hab (by simp [goStrLtAux])
    | cons y bs =>
      cases c with
      | nil => exact absurd hbc (by simp [goStrLtAux])
      | cons z cs =>
        simp only [goStrLtAux] at hab hbc ⊢
        rcases Nat.lt_trichotomy x.toNat y.toNat with h1 | h1 | h1
        · rcases Nat.lt_trichotomy y.toNat z.toNat with h2 | h2 | h2
          · rw [if_pos (Nat.lt_trans h1 h2)]
          · rw [if_pos (h2 ▸ h1)]
          · rw [if_neg (Nat.lt_asymm h2), if_pos h2] at hbc
            exact absurd hbc (by simp)
        · rw [if_neg (by omega), if_neg (by omega)] at hab
          rcases Nat.lt_trichotomy y.toNat z.toNat with h2 | h2 | h2
          · rw [if_pos (h1 ▸ h2)]
          · rw [if_neg (by omega), if_neg (by omega)] at hbc
            rw [if_neg (by omega), if_neg (by omega)]
            exact ih bs cs hab hbc
          · rw [if_neg (Nat.lt_asymm h2), if_pos h2] at hbc
            exact absurd hbc (by simp)
        · rw [if_neg (Nat.lt_asymm h1), if_pos h1] at hab
          exact absurd hab (by simp)

/-- Go string comparison is trichotomous. -/
theorem goStrLtAux_trichotomy : ∀ a b : List Char,
    goStrLtAux a b = true ∨ goStrLtAux b a = true ∨ a = b := by
  intro a
  induction a with
  | nil =>
    intro b
    cases b with
    | nil => right; right; rfl
    | cons y bs => left; rfl
  | cons x as ih =>
    intro b
    cases b with
    | nil => right; left; rfl
    | cons y bs =>
      rcases Nat.lt_trichotomy x.toNat y.toNat with h1 | h1 | h1
      · left; simp only [goStrLtAux, if_pos h1]
      · have hxy : x = y := Char.ext (UInt32.ext h1)
        have hnx : ¬ x.toNat < y.toNat := by omega
        have hny : ¬ y.toNat < x.toNat := by omega
        rcases ih bs with h | h | h
        · left
          simp only [goStrLtAux, if_neg hnx, if_neg hny]
          exact h
        · right; left
          simp only [goStrLtAux, if_neg hny, if_neg hnx]
          exact h
        · right; right; rw [hxy, h]
      · right; left; simp only [goStrLtAux, if_pos h1]

/-- Go string comparison is asymmetric. -/
theorem goStrLtAux_asymm : ∀ a b : List Char,
    goStrLtAux a b = true → goStrLtAux b a = false := by
  intro a
  induction a with
  | nil =>
    intro b hab
    cases b with
    | nil => exact absurd hab (by simp [goStrLtAux])
    | cons y bs => rfl
  | cons x as ih =>
    intro b hab
    cases b with
    | nil => exact absurd hab (by simp [goStrLtAux])
    | cons y bs =>
      simp only [goStrLtAux] at hab ⊢
      rcases Nat.lt_trichotomy x.toNat y.toNat with h1 | h1 | h1
      · rw [if_neg (Nat.lt_asymm h1), if_pos h1]
      · rw [if_neg (by omega), if_neg (by omega)] at hab
        rw [if_neg (by omega), if_neg (by omega)]
        exact ih bs hab
      · rw [if_neg (Nat.lt_asymm h1), if_pos h1] at hab
        exact absurd hab (by simp)

/-- The `List.Less` comparator is asymmetric. -/
theorem Less_asymm (f g : File) :
    FileList.Less f g = true → FileList.Less g f = false := by
  unfold FileList.Less
  cases hf : findSeqId f.Path.data with
  | none =>
    cases hg : findSeqId g.Path.data with
    | none => intro h; exact goStrLtAux_asymm _ _ h
    | some j => intro _; rfl
  | some i =>
    cases hg : findSeqId g.Path.data with
    | none => intro h; exact absurd h (by simp)
    | some j =>
      intro h
      simp only [decide_eq_true_eq] at h
      simp only [decide_eq_false_iff_not]
      omega

/-- The `List.Less` comparator is comparison-connected: a strict pair
stays strict on one side of any third file. -/
theorem Less_connex (h g x : File) :
    FileList.Less h x = true →
      FileList.Less h g = true ∨ FileList.Less g x = true := by
  unfold FileList.Less
  cases hh : findSeqId h.Path.data with
  | none =>
    cases hx : findSeqId x.Path.data with
    | none =>
      cases hg : findSeqId g.Path.data with
      | none =>
        intro hlt
        rcases goStrLtAux_trichotomy h.Path.data g.Path.data with h1 | h1 | h1
        · left; exact h1
        · right
          exact goStrLtAux_trans _ _ _ h1 hlt
        · right
          unfold goStrLt at hlt ⊢
          rw [← h1]; exact hlt
      | some k => intro _; left; rfl
    | some j =>
      cases hg : findSeqId g.Path.data with
      | none => intro _; right; rfl
      | some k => intro _; left; rfl
  | some i =>
    cases hx : findSeqId x.Path.data with
    | none => intro hlt; exact absurd hlt (by simp)
    | some j =>
      cases hg : findSeqId g.Path.data with
      | none => intro _; right; rfl
      | some k =>
        intro hlt
        simp only [decide_eq_true_eq] at hlt ⊢
        omega

/-- Membership in an insertion. -/
theorem mem_insertFile (x y : File) :
    ∀ l : List File, y ∈ insertFile x l ↔ y = x ∨ y ∈ l := by
  intro l
  induction l with
  | nil => simp [insertFile]
  | cons g rest ih =>
    by_cases hc : FileList.Less g x
    · simp only [insertFile, if_pos hc, List.mem_cons, ih]
      tauto
    · simp only [insertFile, if_neg hc, List.mem_cons]

/-- Insertion preserves `Less`-sortedness. -/
theorem insertFile_pairwise (x : File) :
    ∀ l : List File, l.Pairwise (fun a b => FileList.Less b a = false) →
      (insertFile x l).Pairwise (fun a b => FileList.Less b a = false) := by
  intro l
  induction l with
  | nil => intro _; simp [insertFile]
  | cons g rest ih =>
    intro hp
    rw [List.pairwise_cons] at hp
    by_cases hc : FileList.Less g x
    · rw [insertFile, if_pos hc, List.pairwise_cons]
      refine ⟨?_, ih hp.2⟩
      intro b hb
      rcases (mem_insertFile x b rest).mp hb with rfl | hb2
      · exact Less_asymm g b hc
      · exact hp.1 b hb2
    · rw [insertFile, if_neg hc, List.pairwise_cons]
      refine ⟨?_, List.pairwise_cons.mpr hp⟩
      intro b hb
      rcases List.mem_cons.mp hb with rfl | hb2
      · simpa using hc
      · by_contra hbx
        rw [Bool.not_eq_false] at hbx
        rcases Less_connex b g x hbx with h1 | h1
        · rw [hp.1 b hb2] at h1
          exact Bool.false_ne_true h1
        · exact hc h1

/-- The `sortFiles` output is `Less`-sorted: no later entry is strictly less
than an earlier one. -/
theorem sortFiles_pairwise (l : List File) :
    (sortFiles l).Pairwise (fun a b => FileList.Less b a = false) := by
  induction l with
  | nil => simp [sortFiles]
  | cons f rest ih => exact insertFile_pairwise f _ ih

/-- Insertion produces a permutation of consing. -/
theorem insertFile_perm (x : File) :
    ∀ l : List File, List.Perm (insertFile x l) (x :: l) := by
  intro l
  induction l with
  | nil => rfl
  | cons g rest ih =>
    by_cases hc : FileList.Less g x
    · rw [insertFile, if_pos hc]
      exact ((ih.cons g).trans (List.Perm.swap x g rest))
    · rw [insertFile, if_neg hc]

/-- The `sortFiles` function permutes its input. -/
theorem sortFiles_perm (l : List File) : List.Perm (sortFiles l) l := by
  induction l with
  | nil => rfl
  | cons f rest ih => exact (insertFile_perm f _).trans (ih.cons f)

/-- A successful merge keeps a sublist (in particular the relative
order) of the discovered list. -/
theorem mergeLoop_sublist (old : List File) :
    ∀ nw run : List File, mergeLoop old nw = .ok run → run.Sublist nw := by
  intro nw
  induction nw with
  | nil =>
    intro run h
    cases h
    exact List.Sublist.refl []
  | cons g rest ih =>
    intro run h
    cases hp : pathsLookup old g.Path with
    | some p =>
      simp only [mergeLoop, hp] at h
      by_cases hc : (p.MD5 == g.MD5) = true
      · rw [if_pos hc] at h
        exact (ih run h).cons g
      · rw [if_neg hc] at h
        simp at h
    | none =>
      cases hm : md5sLookup old g.MD5 with
      | some p =>
        simp only [mergeLoop, hp, hm] at h
        exact Except.noConfusion h
      | none =>
        simp only [mergeLoop, hp, hm] at h
        cases hrec : mergeLoop old rest with
        | error e =>
          rw [hrec] at h
          simp [Except.map] at h
        | ok r2 =>
          rw [hrec] at h
          simp only [Except.map, Except.ok.injEq] at h
          rw [← h]
          exact (ih r2 hrec).cons₂ g

/-- C7: the ordering imposed on the run plan.  A file without an
embedded ten-digit id (bounded by non-digits) sorts strictly ahead of
every file with one; two files with ids compare by ascending numeric id;
two files without ids compare by lexical path order; and every run plan
produced from discovery is sorted by that comparator regardless of the
order the filesystem presented the files in. -/
theorem C7_run_plan_ordering :
    (∀ f g : File, findSeqId f.Path.data = none → findSeqId g.Path.data ≠ none →
        FileList.Less f g = true ∧ FileList.Less g f = false) ∧
      (∀ f g : File, ∀ i j : Nat, findSeqId f.Path.data = some i →
        findSeqId g.Path.data = some j → FileList.Less f g = decide (i < j)) ∧
      (∀ f g : File, findSeqId f.Path.data = none → findSeqId g.Path.data = none →
        FileList.Less f g = goStrLt f.Path g.Path) ∧
      (∀ (options : Options) (old_list fs run : List File),
        Merge options old_list (Search options fs) = .ok run →
        run.Pairwise fun a b => FileList.Less b a = false) := by
  refine ⟨?_, ?_, ?_, ?_⟩
  · intro f g hf hg
    cases hgv : findSeqId g.Path.data with
    | none => exact absurd hgv hg
    | some j =>
      constructor
      · unfold FileList.Less
        rw [hf, hgv]
      · unfold FileList.Less
        rw [hf, hgv]
  · intro f g i j hf hg
    unfold FileList.Less
    rw [hf, hg]
  · intro f g hf hg
    unfold FileList.Less
    rw [hf, hg]
  · intro options old_list fs run h
    exact List.Pairwise.sublist (mergeLoop_sublist old_list _ run h)
      (sortFiles_pairwise _)

/-- Witness for C7: the spec's own ordering scenario, plus a sorted
concrete run plan. -/
theorem C7_witness :
    (FileList.Less ⟨"sql/t/plain.sql", "h0"⟩ ⟨"sql/t/0000000001_a.sql", "h1"⟩ = true ∧
        FileList.Less ⟨"sql/t/0000000001_a.sql", "h1"⟩ ⟨"sql/t/plain.sql", "h0"⟩ = false) ∧
      FileList.Less ⟨"sql/t/0000000002_b.sql", "h2"⟩ ⟨"sql/t/0000000001_a.sql", "h1"⟩ =
        decide ((2 : Nat) < 1) ∧
      FileList.Less ⟨"sql/a/x.sql", "h3"⟩ ⟨"sql/b/y.sql", "h4"⟩ =
        goStrLt "sql/a/x.sql" "sql/b/y.sql" ∧
      List.Pairwise (fun a b => FileList.Less b a = false)
        (Search ⟨false, false, "sql"⟩
          [⟨"sql/t/0000000002_b.sql", "h2"⟩, ⟨"sql/t/0000000001_a.sql", "h1"⟩,
            ⟨"sql/t/plain.sql", "h0"⟩]) :=
  ⟨C7_run_plan_ordering.1 _ _ (by decide) (by decide),
    C7_run_plan_ordering.2.1 _ _ 2 1 (by decide) (by decide),
    C7_run_plan_ordering.2.2.1 _ _ (by decide) (by decide),
    C7_run_plan_ordering.2.2.2 ⟨false, false, "sql"⟩ []
      [⟨"sql/t/0000000002_b.sql", "h2"⟩, ⟨"sql/t/0000000001_a.sql", "h1"⟩,
        ⟨"sql/t/plain.sql", "h0"⟩] _ rfl⟩

/-! ### Discovery -/

/-- The `splitComps` function always yields at least one component. -/
theorem splitComps_ne_nil : ∀ l : List Char, splitComps l ≠ [] := by
  intro l
  cases l with
  | nil => simp [splitComps]
  | cons c rest =>
    by_cases hc : c = '/'
    · simp [splitComps, hc]
    · simp only [splitComps, if_neg hc]
      cases hsc : splitComps rest with
      | nil => simp [consHead]
      | cons h t => simp [consHead]

/-- The `consHead` function distributes over appending further components. -/
theorem consHead_append (c : Char) (l m : List (List Char)) (h : l ≠ []) :
    consHead c (l ++ m) = consHead c l ++ m := by
  cases l with
  | nil => exact absurd rfl h
  | cons comp comps => rfl

/-- Splitting distributes over a separator. -/
theorem splitComps_append_slash : ∀ a b : List Char,
    splitComps (a ++ '/' :: b) = splitComps a ++ splitComps b := by
  intro a b
  induction a with
  | nil => simp [splitComps]
  | cons c as ih =>
    by_cases hc : c = '/'
    · simp only [List.cons_append, splitComps, if_pos hc, List.append_eq, ih]
    · simp only [List.cons_append, splitComps, if_neg hc, List.append_eq, ih]
      exact consHead_append c (splitComps as) (splitComps b) (splitComps_ne_nil as)

/-- Every character of every component comes from the split input. -/
theorem splitComps_chars : ∀ (l comp : List Char),
    comp ∈ splitComps l → ∀ c ∈ comp, c ∈ l := by
  intro l
  induction l with
  | nil =>
    intro comp hcomp c hc
    simp only [splitComps, List.mem_singleton] at hcomp
    rw [hcomp] at hc
    exact absurd hc (List.not_mem_nil c)
  | cons d rest ih =>
    intro comp hcomp c hc
    by_cases hd : d = '/'
    · rw [splitComps, if_pos hd] at hcomp
      rcases List.mem_cons.mp hcomp with rfl | h2
      · exact absurd hc (List.not_mem_nil c)
      · exact List.mem_cons_of_mem d (ih comp h2 c hc)
    · rw [splitComps, if_neg hd] at hcomp
      cases hsc : splitComps rest with
      | nil => exact absurd hsc (splitComps_ne_nil rest)
      | cons h t =>
        rw [hsc] at hcomp
        simp only [consHead, List.mem_cons] at hcomp
        rcases hcomp with rfl | h2
        · rcases List.mem_cons.mp hc with rfl | h3
          · exact List.mem_cons_self c rest
          · exact List.mem_cons_of_mem d
              (ih h (hsc ▸ List.mem_cons_self h t) c h3)
        · exact List.mem_cons_of_mem d
            (ih comp (hsc ▸ List.mem_cons_of_mem h h2) c hc)

/-- The `starMatch` wildcard succeeds exactly when its continuation accepts some
suffix of the component. -/
theorem starMatch_iff (k : List Char → Bool) :
    ∀ s, starMatch k s = true ↔ ∃ t, t <:+ s ∧ k t = true := by
  intro s
  induction s with
  | nil =>
    simp only [starMatch]
    constructor
    · intro h
      exact ⟨[], List.suffix_rfl, h⟩
    · rintro ⟨t, ht, hk⟩
      rw [List.suffix_nil.mp ht] at hk
      exact hk
  | cons c s2 ih =>
    simp only [starMatch, Bool.or_eq_true, ih]
    constructor
    · rintro (h | ⟨t, ht, hk⟩)
      · exact ⟨c :: s2, List.suffix_rfl, h⟩
      · exact ⟨t, ht.trans (List.suffix_cons c s2), hk⟩
    · rintro ⟨t, ht, hk⟩
      rcases List.suffix_cons_iff.mp ht with rfl | h2
      · exact Or.inl hk
      · exact Or.inr ⟨t, h2, hk⟩

/-- A pattern free of wildcards matches exactly itself. -/
theorem compMatch_literal : ∀ p s : List Char,
    (∀ c ∈ p, c ≠ '*' ∧ c ≠ '?') → (compMatch p s = true ↔ p = s) := by
  intro p
  induction p with
  | nil =>
    intro s _
    cases s with
    | nil => simp [compMatch]
    | cons c s2 => simp [compMatch]
  | cons c ps ih =>
    intro s hlit
    obtain ⟨hstar, hq⟩ := hlit c (List.mem_cons_self c ps)
    cases s with
    | nil =>
      simp only [compMatch, if_neg hstar]
      simp
    | cons c2 s2 =>
      simp only [compMatch, if_neg hstar, if_neg hq, Bool.and_eq_true,
        beq_iff_eq, List.cons.injEq,
        ih s2 fun a ha => hlit a (List.mem_cons_of_mem c ha)]

/-- A `**` pattern component matches every component. -/
theorem compMatch_star_star (s : List Char) :
    compMatch ['*', '*'] s = true := by
  have h1 : ∀ t : List Char, compMatch ['*'] t = true := by
    intro t
    show starMatch (compMatch []) t = true
    rw [starMatch_iff]
    exact ⟨[], List.nil_suffix, rfl⟩
  show starMatch (compMatch ['*']) s = true
  rw [starMatch_iff]
  exact ⟨s, List.suffix_rfl, h1 s⟩

/-- A `*` followed by a wildcard-free tail matches exactly the components
carrying that suffix. -/
theorem compMatch_star_literal (ext : List Char)
    (hlit : ∀ c ∈ ext, c ≠ '*' ∧ c ≠ '?') (s : List Char) :
    compMatch ('*' :: ext) s = true ↔ ext <:+ s := by
  show starMatch (compMatch ext) s = true ↔ _
  rw [starMatch_iff]
  constructor
  · rintro ⟨t, ht, hk⟩
    exact (compMatch_literal ext t hlit).mp hk ▸ ht
  · intro h
    exact ⟨ext, h, (compMatch_literal ext ext hlit).mpr rfl⟩

/-- Matching a pattern whose leading components are wildcard-free peels
those components off literally. -/
theorem compsMatch_peel_literal : ∀ P Q C : List (List Char),
    (∀ p ∈ P, ∀ c ∈ p, c ≠ '*' ∧ c ≠ '?') →
    (compsMatch (P ++ Q) C = true ↔
      ∃ C1, C = P ++ C1 ∧ compsMatch Q C1 = true) := by
  intro P
  induction P with
  | nil =>
    intro Q C _
    simp
  | cons p P2 ih =>
    intro Q C hlit
    cases C with
    | nil =>
      constructor
      · intro h
        rw [show compsMatch ((p :: P2) ++ Q) [] = false from rfl] at h
        exact absurd h (by simp)
      · rintro ⟨C1, hC, _⟩
        exact absurd hC (by simp)
    | cons c C2 =>
      rw [show compsMatch ((p :: P2) ++ Q) (c :: C2) =
        (compMatch p c && compsMatch (P2 ++ Q) C2) from rfl]
      rw [Bool.and_eq_true,
        compMatch_literal p c (hlit p (List.mem_cons_self p P2)),
        ih Q C2 fun q hq => hlit q (List.mem_cons_of_mem p hq)]
      constructor
      · rintro ⟨hpc, C1, hC2, hq⟩
        exact ⟨C1, by rw [List.cons_append, ← hpc, hC2], hq⟩
      · rintro ⟨C1, hC, hq⟩
        rw [List.cons_append] at hC
        injection hC with h1 h2
        exact ⟨h1.symm, C1, h2, hq⟩

/-- The pattern `root/**/<star><ext>` (with a wildcard-free root)
matches exactly the paths made of the root's components, one directory
component, and one base component with suffix `ext`. -/
theorem glob_one_level (root : String)
    (hroot : ∀ c ∈ root.data, c ≠ '*' ∧ c ≠ '?')
    (ext : List Char) (hext : ∀ c ∈ ext, c ≠ '*' ∧ c ≠ '?') (path : String) :
    compsMatch (splitComps root.data ++ [['*', '*'], '*' :: ext])
        (splitComps path.data) = true ↔
      ∃ mid base,
        splitComps path.data = splitComps root.data ++ [mid, base] ∧
        ext <:+ base := by
  rw [compsMatch_peel_literal (splitComps root.data) _ _
    fun p hp c hc => hroot c (splitComps_chars root.data p hp c hc)]
  constructor
  · rintro ⟨C1, hC, hm⟩
    cases C1 with
    | nil =>
      rw [show compsMatch [['*', '*'], '*' :: ext] [] = false from rfl] at hm
      exact absurd hm (by simp)
    | cons mid C2 =>
      cases C2 with
      | nil =>
        rw [show compsMatch [['*', '*'], '*' :: ext] [mid] =
          (compMatch ['*', '*'] mid && false) from rfl] at hm
        exact absurd hm (by simp)
      | cons base C3 =>
        cases C3 with
        | nil =>
          rw [show compsMatch [['*', '*'], '*' :: ext] [mid, base] =
            (compMatch ['*', '*'] mid && (compMatch ('*' :: ext) base && true))
            from rfl] at hm
          simp only [Bool.and_true, Bool.and_eq_true] at hm
          exact ⟨mid, base, hC, (compMatch_star_literal ext hext base).mp hm.2⟩
        | cons x C4 =>
          rw [show compsMatch [['*', '*'], '*' :: ext] (mid :: base :: x :: C4) =
            (compMatch ['*', '*'] mid && (compMatch ('*' :: ext) base && false))
            from rfl] at hm
          exact absurd hm (by simp)
  · rintro ⟨mid, base, hC, hs⟩
    refine ⟨[mid, base], hC, ?_⟩
    rw [show compsMatch [['*', '*'], '*' :: ext] [mid, base] =
      (compMatch ['*', '*'] mid && (compMatch ('*' :: ext) base && true))
      from rfl]
    simp only [Bool.and_true, Bool.and_eq_true]
    exact ⟨compMatch_star_star mid, (compMatch_star_literal ext hext base).mpr hs⟩

/-- Component form of the `.sql` search pattern. -/
theorem splitComps_sql_pattern (root : String) :
    splitComps (root ++ "/**/*.sql").data =
      splitComps root.data ++ [['*', '*'], '*' :: ".sql".data] := by
  have h : (root ++ "/**/*.sql").data = root.data ++ '/' :: "**/*.sql".data :=
    String.data_append root "/**/*.sql"
  rw [h, splitComps_append_slash]
  rfl

/-- Component form of the `.csv` search pattern. -/
theorem splitComps_csv_pattern (root : String) :
    splitComps (root ++ "/**/*.csv").data =
      splitComps root.data ++ [['*', '*'], '*' :: ".csv".data] := by
  have h : (root ++ "/**/*.csv").data = root.data ++ '/' :: "**/*.csv".data :=
    String.data_append root "/**/*.csv"
  rw [h, splitComps_append_slash]
  rfl

/-- C2 (amended): for a wildcard-free search root, discovery returns
exactly the files sitting exactly one directory level below the root
whose base name ends in `.sql` or `.csv` — files directly in the root or
nested deeper are never found, because `*` in the glob never crosses a
path separator. -/
theorem C2_search_one_level (root : String)
    (hroot : ∀ c ∈ root.data, c ≠ '*' ∧ c ≠ '?')
    (d v : Bool) (fs : List File) (f : File) :
    f ∈ Search ⟨d, v, root⟩ fs ↔
      f ∈ fs ∧ ∃ mid base,
        splitComps f.Path.data = splitComps root.data ++ [mid, base] ∧
        (".sql".data <:+ base ∨ ".csv".data <:+ base) := by
  have hmat1 : pathMatchesPattern (root ++ "/**/*.sql") f.Path = true ↔
      ∃ mid base,
        splitComps f.Path.data = splitComps root.data ++ [mid, base] ∧
        ".sql".data <:+ base := by
    unfold pathMatchesPattern
    rw [splitComps_sql_pattern root]
    exact glob_one_level root hroot ".sql".data (by decide) f.Path
  have hmat2 : pathMatchesPattern (root ++ "/**/*.csv") f.Path = true ↔
      ∃ mid base,
        splitComps f.Path.data = splitComps root.data ++ [mid, base] ∧
        ".csv".data <:+ base := by
    unfold pathMatchesPattern
    rw [splitComps_csv_pattern root]
    exact glob_one_level root hroot ".csv".data (by decide) f.Path
  have hperm := List.Perm.mem_iff (a := f) (sortFiles_perm
    ((fs.filter fun f2 => pathMatchesPattern (root ++ "/**/*.sql") f2.Path)
      ++ (fs.filter fun f2 => pathMatchesPattern (root ++ "/**/*.csv") f2.Path)))
  unfold Search
  rw [hperm, List.mem_append, List.mem_filter, List.mem_filter, hmat1, hmat2]
  constructor
  · rintro (⟨hf, mid, base, hC, hs⟩ | ⟨hf, mid, base, hC, hs⟩)
    · exact ⟨hf, mid, base, hC, Or.inl hs⟩
    · exact ⟨hf, mid, base, hC, Or.inr hs⟩
  · rintro ⟨hf, mid, base, hC, hs | hs⟩
    · exact Or.inl ⟨hf, mid, base, hC, hs⟩
    · exact Or.inr ⟨hf, mid, base, hC, hs⟩

/-- Witness for the amended C2: a `.csv` file exactly one directory
below the root is discovered. -/
theorem C2_witness :
    (⟨"sql/users/data.csv", "h"⟩ : File) ∈
      Search ⟨false, false, "sql"⟩ [⟨"sql/users/data.csv", "h"⟩] :=
  (C2_search_one_level "sql" (by decide) false false
    [⟨"sql/users/data.csv", "h"⟩] ⟨"sql/users/data.csv", "h"⟩).mpr
    ⟨List.mem_singleton.mpr rfl, "users".data, "data.csv".data,
      by decide, Or.inr ⟨"data".data, rfl⟩⟩

/-- C2 counterexample: with search root `sql`, a `.sql` file directly in
the root and one nested two directories deep are both missed by
discovery — `Search` returns the empty list although both files carry
the `.sql` extension and live under the root. -/
theorem C2_counterexample :
    Search ⟨false, false, "sql"⟩
        [⟨"sql/top.sql", "h1"⟩, ⟨"sql/a/b/c.sql", "h2"⟩] = [] ∧
      List.isSuffixOf ".sql".data "sql/top.sql".data = true ∧
      List.isSuffixOf ".sql".data "sql/a/b/c.sql".data = true := by
  exact ⟨by decide, by decide, by decide⟩

end Schema
